import Mathlib

/-!
Verification of the docweaver admission controller (`GeminiRateLimiter` in
`src/clinical_orchestrator/document_processor.py`, duplicated without the
statistics counters in `src/rate_limiter.py`) and of two helpers of
`DocumentProcessor` (`_parse_json_response`, `classify_document`).

Time is modelled by an arbitrary linearly ordered commutative ring `α` (the source only
adds, subtracts and compares seconds); theorems therefore cover the real-valued
clock of the source, while concrete witnesses instantiate `α := ℤ`.  Each call
to `acquire` is driven by an external clock: `now` is the value of the first
`datetime.now()` read at entry, and `δ` is the (non-negative) clock advance
between the end of the optional sleep and the second `datetime.now()` read at
the final append.  `asyncio.sleep wait` advances the clock by exactly `wait`.
-/

namespace DocWeaver

set_option linter.unusedSectionVars false

variable {α : Type} [LinearOrderedCommRing α]

/-- State of `GeminiRateLimiter` (document_processor.py, lines 22-28):
`max_calls`, `time_window` (seconds), the deque `call_times` (oldest first,
bounded by `maxlen = max_calls`), and the two statistics counters. -/
structure GeminiRateLimiter (α : Type) where
  max_calls : Nat
  time_window : α
  call_times : List α
  total_waits : Nat
  total_wait_time : α
deriving DecidableEq

/-- The freshly constructed limiter: `__init__` sets an empty deque and zero
counters. -/
def GeminiRateLimiter.init (max_calls : Nat) (time_window : α) : GeminiRateLimiter α :=
  ⟨max_calls, time_window, [], 0, 0⟩

/-- `deque(maxlen=maxlen).append t`: the new element goes to the back; when the
deque would exceed `maxlen`, elements are discarded from the front. -/
def dequeAppend (maxlen : Nat) (xs : List α) (t : α) : List α :=
  let ys := xs ++ [t]
  if maxlen < ys.length then ys.drop (ys.length - maxlen) else ys

/-- `acquire` (document_processor.py, lines 30-46).  `now` is the first
`datetime.now()`; the returned value of type `α` is the timestamp recorded by
the final `self.call_times.append(datetime.now())`, namely `now + wait + δ`
after a sleep of `wait` seconds and `now + δ` otherwise.  `none` models the
`IndexError` raised by `self.call_times[0]` on an empty deque, reachable only
when `max_calls = 0`. -/
def GeminiRateLimiter.acquire (s : GeminiRateLimiter α) (now δ : α) :
    Option (GeminiRateLimiter α × α) :=
  if s.max_calls ≤ s.call_times.length then
    match s.call_times.head? with
    | none => none
    | some oldest =>
      if now - oldest < s.time_window then
        some ({ s with
          call_times := dequeAppend s.max_calls s.call_times
            (now + (s.time_window - (now - oldest) + 1) + δ)
          total_waits := s.total_waits + 1
          total_wait_time := s.total_wait_time + (s.time_window - (now - oldest) + 1) },
          now + (s.time_window - (now - oldest) + 1) + δ)
      else
        some ({ s with call_times := dequeAppend s.max_calls s.call_times (now + δ) },
          now + δ)
  else
    some ({ s with call_times := dequeAppend s.max_calls s.call_times (now + δ) },
      now + δ)

/-- The dictionary returned by `get_stats` (document_processor.py, lines 48-54). -/
structure UsageStats (α : Type) where
  total_waits : Nat
  total_wait_time : α
  current_calls_in_window : Nat
deriving DecidableEq

/-- `get_stats` reads the three fields and returns them in a fresh dict; it
assigns to no attribute of the limiter. -/
def GeminiRateLimiter.get_stats (s : GeminiRateLimiter α) : UsageStats α :=
  ⟨s.total_waits, s.total_wait_time, s.call_times.length⟩

/-- Run a sequence of `acquire` calls; each element of `trace` supplies the
clock inputs `(now, δ)` of one call.  Returns the final state and the list of
admitted (appended) timestamps in call order. -/
def runAcquires : GeminiRateLimiter α → List (α × α) → Option (GeminiRateLimiter α × List α)
  | s, [] => some (s, [])
  | s, (now, δ) :: rest =>
    match s.acquire now δ with
    | none => none
    | some (s₁, t) =>
      match runAcquires s₁ rest with
      | none => none
      | some (s₂, ts) => some (s₂, t :: ts)

/-- A single clock input is valid when the drift `δ` is non-negative and the
entry reading `now` is not earlier than the last recorded timestamp (the
wall clock does not run backwards between two `datetime.now()` reads). -/
def validStep (s : GeminiRateLimiter α) (now δ : α) : Bool :=
  decide (0 ≤ δ) &&
    (match s.call_times.getLast? with
     | none => true
     | some last => decide (last ≤ now))

/-- Validity of a whole clock trace for `runAcquires`. -/
def validTrace : GeminiRateLimiter α → List (α × α) → Bool
  | _, [] => true
  | s, (now, δ) :: rest =>
    validStep s now δ &&
      (match s.acquire now δ with
       | none => true
       | some (s₁, _) => validTrace s₁ rest)

/-- The last `min m (ts.length)` elements of `ts`: the contents of a deque of
capacity `m` after appending every element of `ts` in order. -/
def windowOf (m : Nat) (ts : List α) : List α := ts.drop (ts.length - m)

/-- Any two admissions `m` apart are at least `W` seconds apart. -/
def GapOK (m : Nat) (W : α) (ts : List α) : Prop :=
  ∀ i, i + m < ts.length → W ≤ ts.getD (i + m) 0 - ts.getD i 0

/-! ### Branch equations of `acquire` -/

theorem acquire_eq_of_not_full (s : GeminiRateLimiter α) (now δ : α)
    (h : s.call_times.length < s.max_calls) :
    s.acquire now δ =
      some ({ s with call_times := dequeAppend s.max_calls s.call_times (now + δ) },
        now + δ) := by
  unfold GeminiRateLimiter.acquire
  rw [if_neg (by omega)]

theorem acquire_eq_of_expired (s : GeminiRateLimiter α) (now δ oldest : α)
    (hcap : s.max_calls ≤ s.call_times.length)
    (hhead : s.call_times.head? = some oldest)
    (hge : s.time_window ≤ now - oldest) :
    s.acquire now δ =
      some ({ s with call_times := dequeAppend s.max_calls s.call_times (now + δ) },
        now + δ) := by
  unfold GeminiRateLimiter.acquire
  rw [if_pos hcap, hhead]
  exact if_neg (not_lt.2 hge)

theorem acquire_eq_of_wait (s : GeminiRateLimiter α) (now δ oldest : α)
    (hcap : s.max_calls ≤ s.call_times.length)
    (hhead : s.call_times.head? = some oldest)
    (hlt : now - oldest < s.time_window) :
    s.acquire now δ =
      some ({ s with
        call_times := dequeAppend s.max_calls s.call_times
          (now + (s.time_window - (now - oldest) + 1) + δ)
        total_waits := s.total_waits + 1
        total_wait_time := s.total_wait_time + (s.time_window - (now - oldest) + 1) },
        now + (s.time_window - (now - oldest) + 1) + δ) := by
  unfold GeminiRateLimiter.acquire
  rw [if_pos hcap, hhead]
  exact if_pos hlt

/-! ### The deque as a suffix of the admission history -/

theorem windowOf_of_le {m : Nat} {ts : List α} (h : ts.length ≤ m) :
    windowOf m ts = ts := by
  simp [windowOf, Nat.sub_eq_zero_of_le h]

theorem windowOf_length (m : Nat) (ts : List α) :
    (windowOf m ts).length = ts.length - (ts.length - m) := by
  simp [windowOf]

theorem dequeAppend_windowOf {m : Nat} (hm : 0 < m) (ts : List α) (t : α) :
    dequeAppend m (windowOf m ts) t = windowOf m (ts ++ [t]) := by
  rcases le_or_lt ts.length m with h | h
  · rw [windowOf_of_le h]
    rcases eq_or_lt_of_le h with he | hlt
    · unfold dequeAppend windowOf
      simp only [List.length_append, List.length_cons, List.length_nil]
      rw [if_pos (by omega)]
    · unfold dequeAppend windowOf
      simp only [List.length_append, List.length_cons, List.length_nil]
      rw [if_neg (by omega), Nat.sub_eq_zero_of_le (by omega), List.drop_zero]
  · have hlenw : (windowOf m ts).length = m := by
      rw [windowOf_length]; omega
    unfold dequeAppend
    simp only [hlenw, List.length_append, List.length_cons, List.length_nil]
    rw [if_pos (by omega)]
    unfold windowOf
    rw [List.drop_append_eq_append_drop, List.drop_append_eq_append_drop,
      List.drop_drop, List.length_drop]
    simp only [List.length_append, List.length_cons, List.length_nil]
    have h2 : ts.length - m + (m + (1 + 0) - m) = ts.length + (1 + 0) - m := by omega
    have h3 : m + (1 + 0) - m - (ts.length - (ts.length - m)) =
        ts.length + (1 + 0) - m - ts.length := by omega
    rw [h2, h3]

theorem windowOf_getLast? {m : Nat} (hm : 0 < m) (ts : List α) :
    (windowOf m ts).getLast? = ts.getLast? := by
  unfold windowOf
  rw [List.getLast?_eq_getElem?, List.getLast?_eq_getElem?, List.getElem?_drop,
    List.length_drop]
  congr 1
  omega

theorem windowOf_head?_of_le {m : Nat} {ts : List α} (h : m ≤ ts.length) :
    (windowOf m ts).head? = ts[ts.length - m]? := by
  unfold windowOf
  rw [List.head?_eq_getElem?, List.getElem?_drop, Nat.add_zero]

/-! ### Sorted-list helpers -/

theorem sorted_le_getLast {l : List α} (hs : List.Sorted (· ≤ ·) l) {x : α}
    (hx : l.getLast? = some x) : ∀ b ∈ l, b ≤ x := by
  rcases List.getLast?_eq_some_iff.1 hx with ⟨ys, rfl⟩
  intro b hb
  rcases List.mem_append.1 hb with h | h
  · exact (List.pairwise_append.1 hs).2.2 b h x (List.mem_singleton_self x)
  · rw [List.mem_singleton.1 h]

theorem sorted_getD_mono {l : List α} (hs : List.Sorted (· ≤ ·) l) {i j : Nat}
    (hij : i ≤ j) (hj : j < l.length) :
    l.getD i 0 ≤ l.getD j 0 := by
  rw [List.getD_eq_get _ _ (lt_of_le_of_lt hij hj), List.getD_eq_get _ _ hj]
  exact hs.rel_get_of_le (by exact hij)

/-! ### The one-step invariant of `acquire` -/

theorem acquire_step (s : GeminiRateLimiter α) (now δ : α) (ts : List α)
    (hm : 0 < s.max_calls)
    (hδ : 0 ≤ δ)
    (hlast : ∀ l, s.call_times.getLast? = some l → l ≤ now)
    (hwin : s.call_times = windowOf s.max_calls ts)
    (hsort : List.Sorted (· ≤ ·) ts)
    (hgap : GapOK s.max_calls s.time_window ts) :
    ∃ s₁ t, s.acquire now δ = some (s₁, t) ∧
      s₁.max_calls = s.max_calls ∧ s₁.time_window = s.time_window ∧
      s₁.call_times = windowOf s.max_calls (ts ++ [t]) ∧
      List.Sorted (· ≤ ·) (ts ++ [t]) ∧
      GapOK s.max_calls s.time_window (ts ++ [t]) := by
  have hlen : s.call_times.length = ts.length - (ts.length - s.max_calls) := by
    rw [hwin, windowOf_length]
  -- any admitted timestamp so far is at most `now`
  have hmem_now : ∀ b ∈ ts, b ≤ now := by
    intro b hb
    have hne : ts ≠ [] := List.ne_nil_of_mem hb
    obtain ⟨x, hx⟩ := Option.ne_none_iff_exists'.1
      (mt List.getLast?_eq_none_iff.1 hne)
    have hx' : s.call_times.getLast? = some x := by
      rw [hwin, windowOf_getLast? hm, hx]
    exact le_trans (sorted_le_getLast hsort hx b hb) (hlast x hx')
  -- appending any `t ≥ now` preserves sortedness
  have hsorted_app : ∀ t : α, now ≤ t → List.Sorted (· ≤ ·) (ts ++ [t]) := by
    intro t hnt
    refine List.pairwise_append.2 ⟨hsort, List.pairwise_singleton _ _, ?_⟩
    intro a ha b hb
    rw [List.mem_singleton.1 hb]
    exact le_trans (hmem_now a ha) hnt
  -- the gap condition only has to be checked at the new index
  have hgap_app : ∀ t : α,
      (s.max_calls ≤ ts.length →
        s.time_window ≤ t - ts.getD (ts.length - s.max_calls) 0) →
      GapOK s.max_calls s.time_window (ts ++ [t]) := by
    intro t hnew i hi
    simp only [List.length_append, List.length_cons, List.length_nil] at hi
    rcases lt_or_ge (i + s.max_calls) ts.length with hilt | hile
    · rw [List.getD_append _ _ _ _ hilt,
        List.getD_append _ _ _ _ (by omega)]
      exact hgap i hilt
    · have hieq : i + s.max_calls = ts.length := by omega
      have hi' : i = ts.length - s.max_calls := by omega
      rw [hieq, List.getD_append_right _ _ _ _ (le_refl _), Nat.sub_self,
        List.getD_cons_zero, List.getD_append _ _ _ _ (by omega), hi']
      exact hnew (by omega)
  rcases lt_or_ge s.call_times.length s.max_calls with hsmall | hbig
  · -- under capacity: admit immediately at `now + δ`
    refine ⟨_, now + δ, acquire_eq_of_not_full s now δ hsmall, rfl, rfl, ?_, ?_, ?_⟩
    · rw [hwin, dequeAppend_windowOf hm]
    · exact hsorted_app _ (le_add_of_nonneg_right hδ)
    · exact hgap_app _ (fun hcap => absurd hcap (by omega))
  · -- at capacity: the deque head is admission `ts.length - max_calls`
    have hLm : s.max_calls ≤ ts.length := by omega
    have hidx : ts.length - s.max_calls < ts.length := by omega
    have hhead : s.call_times.head? = some (ts.getD (ts.length - s.max_calls) 0) := by
      rw [hwin, windowOf_head?_of_le hLm, List.getElem?_eq_getElem hidx,
        List.getD_eq_getElem _ _ hidx]
    set oldest := ts.getD (ts.length - s.max_calls) 0 with holdest
    have hold_now : oldest ≤ now := by
      refine hmem_now _ ?_
      rw [holdest, List.getD_eq_getElem _ _ hidx]
      exact List.getElem_mem _
    rcases lt_or_ge (now - oldest) s.time_window with hlt | hge
    · -- sleep branch: admitted at `now + wait + δ` with `wait = W - elapsed + 1`
      have hwaitpos : (0 : α) ≤ s.time_window - (now - oldest) + 1 :=
        add_nonneg (le_of_lt (sub_pos.2 hlt)) zero_le_one
      refine ⟨_, _, acquire_eq_of_wait s now δ oldest hbig hhead hlt, rfl, rfl, ?_, ?_, ?_⟩
      · rw [hwin, dequeAppend_windowOf hm]
      · exact hsorted_app _
          (le_trans (le_add_of_nonneg_right hwaitpos) (le_add_of_nonneg_right hδ))
      · refine hgap_app _ (fun _ => ?_)
        have he : now + (s.time_window - (now - oldest) + 1) + δ - oldest =
            s.time_window + (1 + δ) := by ring
        rw [he]
        exact le_add_of_nonneg_right (add_nonneg zero_le_one hδ)
    · -- expired branch: admitted at `now + δ`
      refine ⟨_, _, acquire_eq_of_expired s now δ oldest hbig hhead hge, rfl, rfl, ?_, ?_, ?_⟩
      · rw [hwin, dequeAppend_windowOf hm]
      · exact hsorted_app _ (le_add_of_nonneg_right hδ)
      · refine hgap_app _ (fun _ => ?_)
        have he : now + δ - oldest = now - oldest + δ := by ring
        rw [he]
        exact le_trans hge (le_add_of_nonneg_right hδ)

/-! ### The run-level invariant -/

theorem runAcquires_inv (trace : List (α × α)) :
    ∀ (s : GeminiRateLimiter α) (ts : List α),
    0 < s.max_calls →
    validTrace s trace = true →
    s.call_times = windowOf s.max_calls ts →
    List.Sorted (· ≤ ·) ts →
    GapOK s.max_calls s.time_window ts →
    ∃ s₂ ts₂, runAcquires s trace = some (s₂, ts₂) ∧
      s₂.max_calls = s.max_calls ∧ s₂.time_window = s.time_window ∧
      s₂.call_times = windowOf s.max_calls (ts ++ ts₂) ∧
      List.Sorted (· ≤ ·) (ts ++ ts₂) ∧
      GapOK s.max_calls s.time_window (ts ++ ts₂) := by
  induction trace with
  | nil =>
    intro s ts hm _ hwin hsort hgap
    exact ⟨s, [], rfl, rfl, rfl, by simpa using hwin, by simpa using hsort,
      by simpa using hgap⟩
  | cons p rest ih =>
    obtain ⟨now, δ⟩ := p
    intro s ts hm hvalid hwin hsort hgap
    simp only [validTrace, Bool.and_eq_true] at hvalid
    obtain ⟨hstep, hrest⟩ := hvalid
    simp only [validStep, Bool.and_eq_true, decide_eq_true_eq] at hstep
    have hδ : 0 ≤ δ := hstep.1
    have hlast : ∀ l, s.call_times.getLast? = some l → l ≤ now := by
      intro l hl
      have := hstep.2
      rw [hl] at this
      exact of_decide_eq_true this
    obtain ⟨s₁, t, heq, hmeq, hweq, hwin₁, hsort₁, hgap₁⟩ :=
      acquire_step s now δ ts hm hδ hlast hwin hsort hgap
    rw [heq] at hrest
    obtain ⟨s₂, ts₂, hrun₂, hmeq₂, hweq₂, hwin₂, hsort₂, hgap₂⟩ :=
      ih s₁ (ts ++ [t]) (hmeq ▸ hm) hrest (by rw [hwin₁, hmeq]) hsort₁
        (by rw [hmeq, hweq]; exact hgap₁)
    refine ⟨s₂, t :: ts₂, ?_, by rw [hmeq₂, hmeq], by rw [hweq₂, hweq], ?_, ?_, ?_⟩
    · simp only [runAcquires, heq, hrun₂]
    · rw [hwin₂, hmeq, List.append_assoc, List.singleton_append]
    · rw [List.append_assoc, List.singleton_append] at hsort₂
      exact hsort₂
    · rw [hmeq, hweq] at hgap₂
      rw [List.append_assoc, List.singleton_append] at hgap₂
      exact hgap₂

/-! ### Counting admissions in a trailing window -/

theorem window_count_le {m : Nat} {W : α} {ts : List α} (T : α)
    (hsort : List.Sorted (· ≤ ·) ts)
    (hgap : GapOK m W ts) :
    ((Finset.range ts.length).filter
      (fun i => T - W < ts.getD i 0 ∧ ts.getD i 0 ≤ T)).card ≤ m := by
  by_contra hcon
  push_neg at hcon
  set S := (Finset.range ts.length).filter
      (fun i => T - W < ts.getD i 0 ∧ ts.getD i 0 ≤ T) with hS
  have hne : S.Nonempty := Finset.card_pos.1 (by omega)
  set i0 := S.min' hne with hi0def
  set i1 := S.max' hne with hi1def
  have hsub : S ⊆ Finset.Icc i0 i1 := fun j hj =>
    Finset.mem_Icc.2 ⟨Finset.min'_le S j hj, Finset.le_max' S j hj⟩
  have hcard : S.card ≤ i1 + 1 - i0 := by
    simpa [Nat.card_Icc] using Finset.card_le_card hsub
  have hi0 : i0 ∈ S := S.min'_mem hne
  have hi1 : i1 ∈ S := S.max'_mem hne
  have hi1r : i1 < ts.length := Finset.mem_range.1 (Finset.mem_filter.1 hi1).1
  have hp0 := (Finset.mem_filter.1 hi0).2
  have hp1 := (Finset.mem_filter.1 hi1).2
  have hmono : i0 + m ≤ i1 := by omega
  have hg := hgap i0 (by omega)
  have hms : ts.getD (i0 + m) 0 ≤ ts.getD i1 0 := sorted_getD_mono hsort hmono hi1r
  have hbig : W ≤ ts.getD i1 0 - ts.getD i0 0 :=
    le_trans hg (sub_le_sub_right hms _)
  have h1 : ts.getD i1 0 - ts.getD i0 0 < ts.getD i1 0 - (T - W) :=
    sub_lt_sub_left hp0.1 _
  have h2 : ts.getD i1 0 - (T - W) ≤ T - (T - W) := sub_le_sub_right hp1.2 _
  have h3 : T - (T - W) = W := by ring
  have h4 : ts.getD i1 0 - (T - W) ≤ W := le_of_le_of_eq h2 h3
  exact absurd (lt_of_le_of_lt hbig (lt_of_lt_of_le h1 h4)) (lt_irrefl W)

/-- Claim C1: for every sequence of sequential `acquire()` calls on a single
`GeminiRateLimiter` with positive configuration, driven by any valid clock
trace, at no point do more than `max_calls` admitted timestamps fall within
any trailing `time_window` interval `(T - time_window, T]`. -/
theorem C1_sliding_window_bound {m : Nat} {W : α} (trace : List (α × α))
    (s₂ : GeminiRateLimiter α) (ts : List α) (T : α)
    (hm : 0 < m) (hW : 0 < W)
    (hvalid : validTrace (GeminiRateLimiter.init m W) trace = true)
    (hrun : runAcquires (GeminiRateLimiter.init m W) trace = some (s₂, ts)) :
    ((Finset.range ts.length).filter
      (fun i => T - W < ts.getD i 0 ∧ ts.getD i 0 ≤ T)).card ≤ m := by
  obtain ⟨s₂', ts₂', hrun', _, _, _, hsort, hgap⟩ :=
    runAcquires_inv trace (GeminiRateLimiter.init m W) [] hm hvalid
      (by simp [GeminiRateLimiter.init, windowOf]) List.sorted_nil
      (fun i hi => absurd hi (by simp))
  rw [hrun] at hrun'
  simp only [Option.some.injEq, Prod.mk.injEq] at hrun'
  obtain ⟨h1, h2⟩ := hrun'
  subst h1
  subst h2
  simp only [List.nil_append] at hsort hgap
  exact window_count_le T hsort hgap

/-- Witness for C1 at a concrete run: `max_calls = 1`, `time_window = 1`,
two calls at integer times 0 and 2, inspected at `T = 1`. -/
theorem C1_witness :
    ((Finset.range ([0, 2] : List ℤ).length).filter
      (fun i => (1 : ℤ) - 1 < ([0, 2] : List ℤ).getD i 0 ∧
        ([0, 2] : List ℤ).getD i 0 ≤ 1)).card ≤ 1 :=
  C1_sliding_window_bound [((0 : ℤ), 0), (2, 0)] ⟨1, 1, [2], 0, 0⟩ [0, 2] 1
    (by decide) (by decide) (by decide) (by decide)

/-- Claim C2: when the Window holds fewer than `max_calls` entries, or the
oldest entry is at least `time_window` old, `acquire` admits immediately (the
appended timestamp is the current clock reading, no sleep, counters
untouched); otherwise it sleeps exactly `time_window - elapsed + 1` seconds
and appends the post-wait timestamp, incrementing the wait counters. -/
theorem C2_acquire_timing (s : GeminiRateLimiter α) (now δ : α) :
    (s.call_times.length < s.max_calls →
      s.acquire now δ =
        some ({ s with call_times := dequeAppend s.max_calls s.call_times (now + δ) },
          now + δ)) ∧
    (∀ oldest, s.max_calls ≤ s.call_times.length →
      s.call_times.head? = some oldest → s.time_window ≤ now - oldest →
      s.acquire now δ =
        some ({ s with call_times := dequeAppend s.max_calls s.call_times (now + δ) },
          now + δ)) ∧
    (∀ oldest, s.max_calls ≤ s.call_times.length →
      s.call_times.head? = some oldest → now - oldest < s.time_window →
      s.acquire now δ =
        some ({ s with
          call_times := dequeAppend s.max_calls s.call_times
            (now + (s.time_window - (now - oldest) + 1) + δ)
          total_waits := s.total_waits + 1
          total_wait_time := s.total_wait_time + (s.time_window - (now - oldest) + 1) },
          now + (s.time_window - (now - oldest) + 1) + δ)) :=
  ⟨fun h => acquire_eq_of_not_full s now δ h,
   fun oldest h1 h2 h3 => acquire_eq_of_expired s now δ oldest h1 h2 h3,
   fun oldest h1 h2 h3 => acquire_eq_of_wait s now δ oldest h1 h2 h3⟩

/-- Witness for C2: a full window (`max_calls = 1`, entry at time 0) and a
call at time 10 sleeps `60 - 10 + 1 = 51` seconds and records timestamp 61. -/
theorem C2_witness :
    (⟨1, 60, [0], 0, 0⟩ : GeminiRateLimiter ℤ).acquire 10 0 =
      some (⟨1, 60, [61], 1, 51⟩, 61) := by
  have h := (C2_acquire_timing (⟨1, 60, [0], 0, 0⟩ : GeminiRateLimiter ℤ) 10 0).2.2
    0 (by decide) (by decide) (by decide)
  exact h.trans (by decide)

/-- Appending to a full deque keeps the last `m` elements: the head is
evicted. -/
theorem dequeAppend_of_full {m : Nat} {xs : List α} (t : α)
    (h : xs.length = m) (hne : xs ≠ []) :
    dequeAppend m xs t = xs.tail ++ [t] := by
  have hpos : 0 < xs.length := List.length_pos.2 hne
  unfold dequeAppend
  simp only [List.length_append, List.length_cons, List.length_nil, h]
  rw [if_pos (by omega)]
  have h1 : m + (1 + 0) - m = 1 := by omega
  rw [h1, List.drop_append_eq_append_drop, List.drop_one]
  have h2 : 1 - xs.length = 0 := by omega
  rw [h2, List.drop_zero]

/-- Claim C3: along every valid run from a freshly constructed limiter the
Window never exceeds `max_calls` entries and stays sorted in time order, and
an append at capacity evicts exactly the oldest entry. -/
theorem C3_window_invariant {m : Nat} {W : α} (trace : List (α × α))
    (s₂ : GeminiRateLimiter α) (ts : List α)
    (hm : 0 < m)
    (hvalid : validTrace (GeminiRateLimiter.init m W) trace = true)
    (hrun : runAcquires (GeminiRateLimiter.init m W) trace = some (s₂, ts)) :
    (s₂.call_times.length ≤ m ∧ List.Sorted (· ≤ ·) s₂.call_times) ∧
    (∀ (s : GeminiRateLimiter α) (now δ : α) (s₁ : GeminiRateLimiter α) (t : α),
      s.call_times.length = s.max_calls →
      s.acquire now δ = some (s₁, t) →
      s₁.call_times = s.call_times.tail ++ [t]) := by
  constructor
  · obtain ⟨s₂', ts₂', hrun', _, _, hwin, hsort, _⟩ :=
      runAcquires_inv trace (GeminiRateLimiter.init m W) [] hm hvalid
        (by simp [GeminiRateLimiter.init, windowOf]) List.sorted_nil
        (fun i hi => absurd hi (by simp))
    rw [hrun] at hrun'
    simp only [Option.some.injEq, Prod.mk.injEq] at hrun'
    obtain ⟨h1, h2⟩ := hrun'
    subst h1
    subst h2
    simp only [List.nil_append] at hwin hsort
    have hwin' : s₂.call_times = windowOf m ts := hwin
    constructor
    · rw [hwin', windowOf_length]
      omega
    · rw [hwin']
      exact List.Pairwise.sublist (List.drop_sublist _ _) hsort
  · intro s now δ s₁ t hfull hacq
    cases hct : s.call_times with
    | nil =>
      rw [hct] at hfull
      have h0 : s.max_calls = 0 := by simpa using hfull.symm
      unfold GeminiRateLimiter.acquire at hacq
      rw [hct, h0] at hacq
      simp at hacq
    | cons a l =>
      have hbig : s.max_calls ≤ s.call_times.length := by omega
      have hhead : s.call_times.head? = some a := by rw [hct]; rfl
      have hne : s.call_times ≠ [] := by rw [hct]; simp
      rcases lt_or_ge (now - a) s.time_window with hlt | hge
      · rw [acquire_eq_of_wait s now δ a hbig hhead hlt] at hacq
        simp only [Option.some.injEq, Prod.mk.injEq] at hacq
        obtain ⟨hs₁, ht⟩ := hacq
        rw [← hs₁]
        simp only []
        rw [ht, ← hct]
        exact dequeAppend_of_full t hfull hne
      · rw [acquire_eq_of_expired s now δ a hbig hhead hge] at hacq
        simp only [Option.some.injEq, Prod.mk.injEq] at hacq
        obtain ⟨hs₁, ht⟩ := hacq
        rw [← hs₁]
        simp only []
        rw [ht, ← hct]
        exact dequeAppend_of_full t hfull hne

/-- Witness for C3: a three-call run on `max_calls = 2`, `time_window = 60`. -/
theorem C3_witness :
    (((⟨2, 60, [0, 61], 1, 56⟩ : GeminiRateLimiter ℤ).call_times.length ≤ 2 ∧
      List.Sorted (· ≤ ·) (⟨2, 60, [0, 61], 1, 56⟩ : GeminiRateLimiter ℤ).call_times) ∧
    (∀ (s : GeminiRateLimiter ℤ) (now δ : ℤ) (s₁ : GeminiRateLimiter ℤ) (t : ℤ),
      s.call_times.length = s.max_calls →
      s.acquire now δ = some (s₁, t) →
      s₁.call_times = s.call_times.tail ++ [t])) :=
  @C3_window_invariant ℤ _ 2 60 [((0 : ℤ), 0), (0, 0), (5, 0)]
    ⟨2, 60, [0, 61], 1, 56⟩ [0, 0, 61] (by decide) (by decide) (by decide)

/-- Claim C4: for every limiter state with a positive `max_calls`
configuration, `acquire` succeeds (no error path), never decreases the
cumulative wait time, and whenever it sleeps the recorded wait is at least
the 1-second safety margin. -/
theorem C4_total_no_negative_wait (s : GeminiRateLimiter α) (now δ : α)
    (hm : 0 < s.max_calls) :
    ∃ s₁ t, s.acquire now δ = some (s₁, t) ∧
      s.total_wait_time ≤ s₁.total_wait_time ∧
      ((s₁.total_waits = s.total_waits ∧ s₁.total_wait_time = s.total_wait_time) ∨
        (s₁.total_waits = s.total_waits + 1 ∧
          s.total_wait_time + 1 ≤ s₁.total_wait_time)) := by
  rcases lt_or_ge s.call_times.length s.max_calls with hsmall | hbig
  · exact ⟨_, _, acquire_eq_of_not_full s now δ hsmall, le_refl _, Or.inl ⟨rfl, rfl⟩⟩
  · cases hct : s.call_times with
    | nil =>
      rw [hct] at hbig
      simp at hbig
      omega
    | cons a l =>
      have hhead : s.call_times.head? = some a := by rw [hct]; rfl
      rcases lt_or_ge (now - a) s.time_window with hlt | hge
      · have hw : (1 : α) ≤ s.time_window - (now - a) + 1 :=
          le_add_of_nonneg_left (le_of_lt (sub_pos.2 hlt))
        exact ⟨_, _, acquire_eq_of_wait s now δ a hbig hhead hlt,
          le_add_of_nonneg_right (le_trans zero_le_one hw),
          Or.inr ⟨rfl, add_le_add_left hw _⟩⟩
      · exact ⟨_, _, acquire_eq_of_expired s now δ a hbig hhead hge,
          le_refl _, Or.inl ⟨rfl, rfl⟩⟩

/-- Witness for C4 at a full one-slot window over the integers. -/
theorem C4_witness :
    0 < (⟨1, 60, [0], 0, 0⟩ : GeminiRateLimiter ℤ).max_calls ∧
    (∃ s₁ t, (⟨1, 60, [0], 0, 0⟩ : GeminiRateLimiter ℤ).acquire 10 0 = some (s₁, t) ∧
      (⟨1, 60, [0], 0, 0⟩ : GeminiRateLimiter ℤ).total_wait_time ≤ s₁.total_wait_time ∧
      ((s₁.total_waits = (⟨1, 60, [0], 0, 0⟩ : GeminiRateLimiter ℤ).total_waits ∧
        s₁.total_wait_time = (⟨1, 60, [0], 0, 0⟩ : GeminiRateLimiter ℤ).total_wait_time) ∨
        (s₁.total_waits = (⟨1, 60, [0], 0, 0⟩ : GeminiRateLimiter ℤ).total_waits + 1 ∧
          (⟨1, 60, [0], 0, 0⟩ : GeminiRateLimiter ℤ).total_wait_time + 1 ≤
            s₁.total_wait_time))) :=
  ⟨by decide, C4_total_no_negative_wait ⟨1, 60, [0], 0, 0⟩ 10 0 (by decide)⟩

/-- Spec-side count (refinement target for C7), following the spec's words:
the number of recorded timestamps whose age at observation time `now` is
strictly less than `time_window`. -/
def callsWithinWindow (s : GeminiRateLimiter α) (now : α) : Nat :=
  (s.call_times.filter (fun t => now - t < s.time_window)).length

/-- Counterexample to C7: after one admission at time 0 (`max_calls = 4`,
`time_window = 60`), observed at time 100, `current_calls_in_window` still
reports 1 although no recorded timestamp is younger than 60 seconds: the
deque does not age entries out. -/
theorem C7_counterexample :
    (GeminiRateLimiter.init 4 (60 : ℤ)).acquire 0 0 = some (⟨4, 60, [0], 0, 0⟩, 0) ∧
    (⟨4, 60, [0], 0, 0⟩ : GeminiRateLimiter ℤ).get_stats.current_calls_in_window = 1 ∧
    callsWithinWindow (⟨4, 60, [0], 0, 0⟩ : GeminiRateLimiter ℤ) 100 = 0 := by
  decide

/-- Claim C7 (amended): `get_stats().current_calls_in_window` counts the
retained timestamps — the `min (number of admissions) max_calls` most recent
ones — which are discarded only when evicted by a later admission at
capacity, not when they age past `time_window`. -/
theorem C7_stats_retained_count {m : Nat} {W : α} (trace : List (α × α))
    (s₂ : GeminiRateLimiter α) (ts : List α)
    (hm : 0 < m)
    (hvalid : validTrace (GeminiRateLimiter.init m W) trace = true)
    (hrun : runAcquires (GeminiRateLimiter.init m W) trace = some (s₂, ts)) :
    s₂.get_stats.current_calls_in_window = min ts.length m ∧
    s₂.call_times = ts.drop (ts.length - m) := by
  obtain ⟨s₂', ts₂', hrun', _, _, hwin, _, _⟩ :=
    runAcquires_inv trace (GeminiRateLimiter.init m W) [] hm hvalid
      (by simp [GeminiRateLimiter.init, windowOf]) List.sorted_nil
      (fun i hi => absurd hi (by simp))
  rw [hrun] at hrun'
  simp only [Option.some.injEq, Prod.mk.injEq] at hrun'
  obtain ⟨h1, h2⟩ := hrun'
  subst h1
  subst h2
  simp only [List.nil_append] at hwin
  refine ⟨?_, hwin⟩
  rw [GeminiRateLimiter.get_stats, hwin]
  show (windowOf m ts).length = min ts.length m
  rw [windowOf_length]
  omega

/-- Witness for C7 (amended): one admission on a fresh `(4, 60)` limiter. -/
theorem C7_witness :
    (⟨4, 60, [0], 0, 0⟩ : GeminiRateLimiter ℤ).get_stats.current_calls_in_window =
      min ([0] : List ℤ).length 4 ∧
    (⟨4, 60, [0], 0, 0⟩ : GeminiRateLimiter ℤ).call_times =
      ([0] : List ℤ).drop (([0] : List ℤ).length - 4) :=
  @C7_stats_retained_count ℤ _ 4 60 [((0 : ℤ), 0)] ⟨4, 60, [0], 0, 0⟩ [0]
    (by decide) (by decide) (by decide)

/-! ### Interleaving `get_stats` with `acquire` (claim C5) -/

/-- Every successful `acquire` leaves `max_calls` and `time_window` untouched:
the method only assigns to `call_times`, `total_waits` and `total_wait_time`. -/
theorem acquire_preserves_config (s : GeminiRateLimiter α) (now δ : α)
    (s₁ : GeminiRateLimiter α) (t : α) (h : s.acquire now δ = some (s₁, t)) :
    s₁.max_calls = s.max_calls ∧ s₁.time_window = s.time_window := by
  by_cases hc : s.max_calls ≤ s.call_times.length
  · cases hh : s.call_times.head? with
    | none =>
      unfold GeminiRateLimiter.acquire at h
      rw [if_pos hc, hh] at h
      exact absurd h (by simp)
    | some oldest =>
      by_cases hlt : now - oldest < s.time_window
      · rw [acquire_eq_of_wait s now δ oldest hc hh hlt] at h
        simp only [Option.some.injEq, Prod.mk.injEq] at h
        rw [← h.1]
        exact ⟨rfl, rfl⟩
      · rw [acquire_eq_of_expired s now δ oldest hc hh (not_lt.1 hlt)] at h
        simp only [Option.some.injEq, Prod.mk.injEq] at h
        rw [← h.1]
        exact ⟨rfl, rfl⟩
  · rw [acquire_eq_of_not_full s now δ (by omega)] at h
    simp only [Option.some.injEq, Prod.mk.injEq] at h
    rw [← h.1]
    exact ⟨rfl, rfl⟩

/-- The two public operations of the limiter, for interleaved runs. -/
inductive LimiterOp (α : Type) where
  | acq (now δ : α)
  | stats
deriving DecidableEq

/-- Whether an operation is an `acquire`. -/
def LimiterOp.isAcq {α : Type} : LimiterOp α → Bool
  | .acq _ _ => true
  | .stats => false

/-- Run a mixed sequence of `acquire` and `get_stats` calls, collecting the
snapshots that `get_stats` returns.  `get_stats` builds a fresh dict from the
three fields and assigns to no attribute, so the state passes through it. -/
def runOps : GeminiRateLimiter α → List (LimiterOp α) →
    Option (GeminiRateLimiter α × List (UsageStats α))
  | s, [] => some (s, [])
  | s, .acq now δ :: rest =>
    match s.acquire now δ with
    | none => none
    | some (s₁, _) => runOps s₁ rest
  | s, .stats :: rest =>
    match runOps s rest with
    | none => none
    | some (s₂, out) => some (s₂, s.get_stats :: out)

/-- Claim C5: `get_stats` is a pure read — deleting every `get_stats` call
from an operation sequence leaves the resulting limiter state (and hence all
subsequent wait timings) unchanged — and `acquire` never mutates `max_calls`
or `time_window` after construction. -/
theorem C5_get_stats_pure (s : GeminiRateLimiter α) (ops : List (LimiterOp α)) :
    (runOps s ops).map Prod.fst =
      (runOps s (ops.filter LimiterOp.isAcq)).map Prod.fst ∧
    (∀ (now δ : α) (s₁ : GeminiRateLimiter α) (t : α),
      s.acquire now δ = some (s₁, t) →
      s₁.max_calls = s.max_calls ∧ s₁.time_window = s.time_window) := by
  constructor
  · induction ops generalizing s with
    | nil => rfl
    | cons op rest ih =>
      cases op with
      | acq now δ =>
        have hfil : (LimiterOp.acq now δ :: rest).filter LimiterOp.isAcq =
            LimiterOp.acq now δ :: rest.filter LimiterOp.isAcq := by
          simp [List.filter_cons, LimiterOp.isAcq]
        rw [hfil]
        cases hacq : s.acquire now δ with
        | none => simp [runOps, hacq]
        | some p =>
          obtain ⟨s₁, t⟩ := p
          simp only [runOps, hacq]
          exact ih s₁
      | stats =>
        have hstep : (runOps s (LimiterOp.stats :: rest)).map Prod.fst =
            (runOps s rest).map Prod.fst := by
          cases hr : runOps s rest with
          | none => simp [runOps, hr]
          | some p => simp [runOps, hr]
        have hfil : (LimiterOp.stats :: rest).filter LimiterOp.isAcq =
            rest.filter LimiterOp.isAcq := by
          simp [List.filter_cons, LimiterOp.isAcq]
        rw [hstep, hfil]
        exact ih s
  · exact fun now δ s₁ t h => acquire_preserves_config s now δ s₁ t h

/-- Witness for C5: one `acquire` between two `get_stats` on the integers. -/
theorem C5_witness :
    ((runOps (⟨2, 60, [], 0, 0⟩ : GeminiRateLimiter ℤ)
        [LimiterOp.stats, LimiterOp.acq 5 0, LimiterOp.stats]).map Prod.fst =
      (runOps (⟨2, 60, [], 0, 0⟩ : GeminiRateLimiter ℤ)
        ([LimiterOp.stats, LimiterOp.acq 5 0,
          LimiterOp.stats].filter LimiterOp.isAcq)).map Prod.fst) ∧
    ((⟨2, 60, [5], 0, 0⟩ : GeminiRateLimiter ℤ).max_calls =
        (⟨2, 60, [], 0, 0⟩ : GeminiRateLimiter ℤ).max_calls ∧
      (⟨2, 60, [5], 0, 0⟩ : GeminiRateLimiter ℤ).time_window =
        (⟨2, 60, [], 0, 0⟩ : GeminiRateLimiter ℤ).time_window) :=
  ⟨(C5_get_stats_pure (⟨2, 60, [], 0, 0⟩ : GeminiRateLimiter ℤ)
      [LimiterOp.stats, LimiterOp.acq 5 0, LimiterOp.stats]).1,
   (C5_get_stats_pure (⟨2, 60, [], 0, 0⟩ : GeminiRateLimiter ℤ) []).2
      5 0 ⟨2, 60, [5], 0, 0⟩ 5 (by decide)⟩

/-! ### Cancellation while suspended (claim C8) -/

/-- A caller cancelled while suspended inside `acquire`: in the source the
only suspension point is `await asyncio.sleep(wait_time)`, and every mutation
of the limiter (the two wait counters and the `call_times.append`) occurs
only after that `await` returns, so a `CancelledError` delivered at the
`await` propagates out of `acquire` with the limiter exactly as at entry.
The result is the observable limiter state at the moment of cancellation;
`none` means the call never reached the suspension point (nothing to
cancel). -/
def GeminiRateLimiter.acquireCancelled (s : GeminiRateLimiter α) (now : α) :
    Option (GeminiRateLimiter α) :=
  if s.max_calls ≤ s.call_times.length then
    match s.call_times.head? with
    | none => none
    | some oldest =>
      if now - oldest < s.time_window then some s
      else none
  else none

/-- Claim C8: cancelling a caller suspended inside `acquire` leaves the
Window's occupancy and its oldest and newest entries — and the wait
counters — exactly as they were before that caller's attempt. -/
theorem C8_cancellation_atomic (s : GeminiRateLimiter α) (now : α)
    (s₁ : GeminiRateLimiter α) (h : s.acquireCancelled now = some s₁) :
    s₁.call_times.length = s.call_times.length ∧
    s₁.call_times.head? = s.call_times.head? ∧
    s₁.call_times.getLast? = s.call_times.getLast? ∧
    s₁.total_waits = s.total_waits ∧
    s₁.total_wait_time = s.total_wait_time := by
  have hs : s₁ = s := by
    unfold GeminiRateLimiter.acquireCancelled at h
    by_cases hc : s.max_calls ≤ s.call_times.length
    · rw [if_pos hc] at h
      cases hh : s.call_times.head? with
      | none =>
        simp [hh] at h
      | some oldest =>
        simp only [hh] at h
        by_cases hlt : now - oldest < s.time_window
        · rw [if_pos hlt] at h
          exact (Option.some.inj h).symm
        · rw [if_neg hlt] at h
          exact absurd h (by simp)
    · rw [if_neg hc] at h
      exact absurd h (by simp)
  subst hs
  exact ⟨rfl, rfl, rfl, rfl, rfl⟩

/-- Witness for C8: a caller cancelled while sleeping on a full one-slot
window. -/
theorem C8_witness :
    (⟨1, 60, [0], 0, 0⟩ : GeminiRateLimiter ℤ).call_times.length =
      (⟨1, 60, [0], 0, 0⟩ : GeminiRateLimiter ℤ).call_times.length ∧
    (⟨1, 60, [0], 0, 0⟩ : GeminiRateLimiter ℤ).call_times.head? =
      (⟨1, 60, [0], 0, 0⟩ : GeminiRateLimiter ℤ).call_times.head? ∧
    (⟨1, 60, [0], 0, 0⟩ : GeminiRateLimiter ℤ).call_times.getLast? =
      (⟨1, 60, [0], 0, 0⟩ : GeminiRateLimiter ℤ).call_times.getLast? ∧
    (⟨1, 60, [0], 0, 0⟩ : GeminiRateLimiter ℤ).total_waits =
      (⟨1, 60, [0], 0, 0⟩ : GeminiRateLimiter ℤ).total_waits ∧
    (⟨1, 60, [0], 0, 0⟩ : GeminiRateLimiter ℤ).total_wait_time =
      (⟨1, 60, [0], 0, 0⟩ : GeminiRateLimiter ℤ).total_wait_time :=
  C8_cancellation_atomic (⟨1, 60, [0], 0, 0⟩ : GeminiRateLimiter ℤ) 10
    ⟨1, 60, [0], 0, 0⟩ (by decide)

/-! ### Concurrent callers under cooperative interleaving (claim C6) -/

/-- Admission timestamps of concurrent callers of `acquire` on one shared
limiter under asyncio's cooperative scheduling, one entry time per caller in
issue order.  Translated from the source's control flow: the fast path
(window not full, or expired) contains no `await`, so it runs atomically and
the caller appends its entry reading at once; a caller that finds the window
full and fresh computes `wait = time_window - (entry - oldest) + 1` from the
state observed at entry, suspends in `await asyncio.sleep(wait)` and, on
waking at `entry + wait`, appends unconditionally — the source re-checks
nothing after the sleep.  The model covers schedules in which every caller
starts before the first sleeper wakes (the callers are concurrent; wakes lie
a full window ahead), so a sleeper's append is seen by no later caller's
check, and the clock drift between reads is taken as 0.  The `IndexError`
path (`max_calls = 0`) yields the empty list. -/
def concurrentAcquireTimes : GeminiRateLimiter α → List α → List α
  | _, [] => []
  | s, entry :: rest =>
    if s.max_calls ≤ s.call_times.length then
      match s.call_times.head? with
      | none => []
      | some oldest =>
        if entry - oldest < s.time_window then
          (entry + (s.time_window - (entry - oldest) + 1)) ::
            concurrentAcquireTimes s rest
        else
          entry :: concurrentAcquireTimes
            { s with call_times := dequeAppend s.max_calls s.call_times entry } rest
    else
      entry :: concurrentAcquireTimes
        { s with call_times := dequeAppend s.max_calls s.call_times entry } rest

/-- Counterexample to C6: five concurrent `acquire()` calls at time 0 on a
fresh limiter with `max_calls = 2`, `time_window = 60`.  The two fast-path
callers are admitted at time 0; the three sleepers each compute `wait = 61`
from the same observed window and are all admitted simultaneously at 61, so
the trailing window `(1, 61]` holds 3 > 2 admissions: the global
sliding-window bound is violated because check–sleep–append is not atomic. -/
theorem C6_counterexample :
    concurrentAcquireTimes (GeminiRateLimiter.init 2 (60 : ℤ)) [0, 0, 0, 0, 0] =
      [0, 0, 61, 61, 61] ∧
    ((Finset.range 5).filter (fun i =>
        (61 : ℤ) - 60 < ([0, 0, 61, 61, 61] : List ℤ).getD i 0 ∧
        ([0, 0, 61, 61, 61] : List ℤ).getD i 0 ≤ 61)).card = 3 ∧
    ¬ (3 ≤ 2) := by decide

/-- Closed form of `concurrentAcquireTimes` for `N` simultaneous callers at
time 0 against a limiter already holding `k ≤ max_calls` zero timestamps:
the first `max_calls - k` callers are admitted instantly, every later caller
sleeps and is admitted at `time_window + 1`. -/
theorem concurrentAcquireTimes_fill (W : α) (hW : 0 < W) :
    ∀ (N : Nat) (s : GeminiRateLimiter α) (k : Nat),
      0 < s.max_calls → s.time_window = W →
      s.call_times = List.replicate k 0 → k ≤ s.max_calls →
      concurrentAcquireTimes s (List.replicate N 0) =
        List.replicate (min N (s.max_calls - k)) 0 ++
          List.replicate (N - (s.max_calls - k)) (W + 1) := by
  intro N
  induction N with
  | zero =>
    intro s k hm hWeq hct hk
    simp [concurrentAcquireTimes]
  | succ n ih =>
    intro s k hm hWeq hct hk
    rw [List.replicate_succ]
    show concurrentAcquireTimes s (0 :: List.replicate n 0) = _
    unfold concurrentAcquireTimes
    rcases eq_or_lt_of_le hk with he | hlt
    · -- the window is already full: this caller and all later ones sleep
      rw [if_pos (by rw [hct, List.length_replicate]; omega)]
      have hhead : s.call_times.head? = some 0 := by
        rw [hct]
        cases k with
        | zero => omega
        | succ j => rw [List.replicate_succ, List.head?_cons]
      simp only [hhead]
      rw [if_pos (by rw [hWeq]; simpa using hW)]
      have hrec := ih s k hm hWeq hct hk
      rw [hrec]
      have hk0 : s.max_calls - k = 0 := by omega
      rw [hk0]
      simp only [Nat.min_zero, List.replicate_zero, List.nil_append, Nat.sub_zero]
      have hhead_eq : (0 : α) + (s.time_window - ((0 : α) - 0) + 1) = W + 1 := by
        rw [hWeq]
        ring
      rw [hhead_eq, ← List.replicate_succ]
    · -- room left: this caller is admitted instantly at its entry time 0
      rw [if_neg (by rw [hct, List.length_replicate]; omega)]
      have hct' : dequeAppend s.max_calls s.call_times (0 : α) =
          List.replicate (k + 1) 0 := by
        rw [hct]
        unfold dequeAppend
        simp only [List.length_append, List.length_replicate, List.length_cons,
          List.length_nil]
        rw [if_neg (by omega), ← List.replicate_succ']
      have hrec := ih { s with call_times := dequeAppend s.max_calls s.call_times 0 }
        (k + 1) hm hWeq hct' hlt
      rw [hrec]
      have e1 : min (n + 1) (s.max_calls - k) = min n (s.max_calls - (k + 1)) + 1 := by
        omega
      have e2 : n + 1 - (s.max_calls - k) = n - (s.max_calls - (k + 1)) := by
        omega
      rw [e1, e2, List.replicate_succ, List.cons_append]

/-- Claim C6 (amended): with `N > max_calls` concurrent `acquire()` calls
issued together at time 0 against a fresh limiter, admissions happen in
issue order (the admission times, listed per caller in issue order, are
non-decreasing) and not all `N` callers are admitted instantly — the
`N - max_calls` overflow callers are delayed a full window.  The global
sliding-window bound, however, is NOT preserved: every delayed caller is
admitted at the same instant `time_window + 1` (see `C6_counterexample`). -/
theorem C6_fifo_not_instant (m N : Nat) (W : α)
    (hm : 0 < m) (hW : 0 < W) (hN : m < N) :
    concurrentAcquireTimes (GeminiRateLimiter.init m W) (List.replicate N 0) =
      List.replicate m 0 ++ List.replicate (N - m) (W + 1) ∧
    List.Sorted (· ≤ ·)
      (concurrentAcquireTimes (GeminiRateLimiter.init m W) (List.replicate N 0)) ∧
    W + 1 ∈ concurrentAcquireTimes (GeminiRateLimiter.init m W)
      (List.replicate N 0) ∧
    ¬ W + 1 ≤ 0 := by
  have heq : concurrentAcquireTimes (GeminiRateLimiter.init m W)
      (List.replicate N 0) =
      List.replicate (min N (m - 0)) 0 ++ List.replicate (N - (m - 0)) (W + 1) :=
    concurrentAcquireTimes_fill W hW N (GeminiRateLimiter.init m W) 0 hm rfl rfl
      (by omega)
  have e1 : min N (m - 0) = m := by omega
  have e2 : N - (m - 0) = N - m := by omega
  rw [e1, e2] at heq
  have hW1 : (0 : α) < W + 1 := add_pos hW zero_lt_one
  refine ⟨heq, ?_, ?_, not_le.2 hW1⟩
  · rw [heq]
    refine List.pairwise_append.2
      ⟨List.pairwise_replicate.2 (Or.inr (le_refl _)),
       List.pairwise_replicate.2 (Or.inr (le_refl _)), ?_⟩
    intro a ha b hb
    rw [(List.mem_replicate.1 ha).2, (List.mem_replicate.1 hb).2]
    exact le_of_lt hW1
  · rw [heq]
    exact List.mem_append.2 (Or.inr (List.mem_replicate.2 ⟨by omega, rfl⟩))

/-- Witness for C6 (amended) at `max_calls = 2`, `time_window = 60`, five
simultaneous callers over the integers. -/
theorem C6_witness :
    (concurrentAcquireTimes (GeminiRateLimiter.init 2 (60 : ℤ))
        (List.replicate 5 0) =
      List.replicate 2 (0 : ℤ) ++ List.replicate (5 - 2) ((60 : ℤ) + 1)) ∧
    List.Sorted (· ≤ ·)
      (concurrentAcquireTimes (GeminiRateLimiter.init 2 (60 : ℤ))
        (List.replicate 5 0)) ∧
    (60 : ℤ) + 1 ∈ concurrentAcquireTimes (GeminiRateLimiter.init 2 (60 : ℤ))
      (List.replicate 5 0) ∧
    ¬ (60 : ℤ) + 1 ≤ 0 :=
  C6_fifo_not_instant 2 5 60 (by decide) (by decide) (by decide)

/-! ### Python string primitives

A Python `str` is a sequence of code points; the helpers below model the
`str` methods used by `_parse_json_response` and `classify_document` on the
underlying code-point list (whitespace and case conversion restricted to
ASCII, which is what those call sites feed them). -/

/-- Python `s.strip()`: remove leading and trailing whitespace. -/
def pyStrip (s : String) : String :=
  ⟨((s.data.dropWhile Char.isWhitespace).reverse.dropWhile Char.isWhitespace).reverse⟩

/-- Python `s.lower()`. -/
def pyLower (s : String) : String :=
  ⟨s.data.map Char.toLower⟩

/-- Python `s.startswith(p)`. -/
def pyStartsWith (s p : String) : Bool :=
  decide (s.data.take p.data.length = p.data)

/-- Python `s.endswith(p)`. -/
def pyEndsWith (s p : String) : Bool :=
  decide (s.data.reverse.take p.data.length = p.data.reverse)

/-- Python `s[n:]`. -/
def pyDrop (s : String) (n : Nat) : String :=
  ⟨s.data.drop n⟩

/-- Python `s[:-n]` (for positive `n`; empty when `n` exceeds the length). -/
def pyDropRight (s : String) (n : Nat) : String :=
  ⟨s.data.take (s.data.length - n)⟩

/-- Python `s[:n]`. -/
def pyTake (s : String) (n : Nat) : String :=
  ⟨s.data.take n⟩

/-! ### JSON-response parsing (claim C9) -/

/-- A Python value as returned by `json.loads` (or built by the
degraded-result branch of `_parse_json_response`). -/
inductive PyValue where
  | null
  | bool (b : Bool)
  | num (q : ℚ)
  | str (s : String)
  | arr (xs : List PyValue)
  | obj (kvs : List (String × PyValue))

/-- The fence stripping inside `_parse_json_response` (document_processor.py,
lines 345-354): `strip()`, then drop a leading ```` ```json ```` (7 code
points), then a leading ```` ``` ````, then a trailing ```` ``` ````, then
`strip()` again. -/
def stripCodeFences (response_text : String) : String :=
  let t0 := pyStrip response_text
  let t1 := if pyStartsWith t0 "```json" then pyDrop t0 7 else t0
  let t2 := if pyStartsWith t1 "```" then pyDrop t1 3 else t1
  let t3 := if pyEndsWith t2 "```" then pyDropRight t2 3 else t2
  pyStrip t3

/-- `_parse_json_response` (document_processor.py, lines 343-359).  The
stdlib `json.loads` is external; it is passed in as `loads`, returning
either the parsed value or the exception text.  The `try/except Exception`
wrapper turns any failure into the degraded dict
`{"error": "Failed to parse JSON: <e>", "raw": response_text[:200]}`
instead of raising. -/
def parse_json_response (loads : String → Except String PyValue)
    (response_text : String) : PyValue :=
  match loads (stripCodeFences response_text) with
  | .ok v => v
  | .error e =>
    .obj [("error", .str ("Failed to parse JSON: " ++ e)),
          ("raw", .str (pyTake response_text 200))]

/-- Sanity check: the fence stripping peels a ```` ```json ```` block. -/
theorem stripCodeFences_fenced_example :
    stripCodeFences " ```json\n\x7b\"a\": 1\x7d\n``` " = "\x7b\"a\": 1\x7d" := by
  decide

/-- Claim C9: for every input string and every behaviour of the external
JSON parser, `_parse_json_response` never raises: it parses the
fence-stripped text, returns the parsed value on success, and on failure
returns the structured degraded dict carrying an error marker and the
(truncated) raw response text. -/
theorem C9_parse_json_total (loads : String → Except String PyValue)
    (response_text : String) :
    (∀ v, loads (stripCodeFences response_text) = .ok v →
      parse_json_response loads response_text = v) ∧
    (∀ e, loads (stripCodeFences response_text) = .error e →
      parse_json_response loads response_text =
        .obj [("error", .str ("Failed to parse JSON: " ++ e)),
              ("raw", .str (pyTake response_text 200))]) := by
  constructor
  · intro v hv
    unfold parse_json_response
    rw [hv]
  · intro e he
    unfold parse_json_response
    rw [he]

/-- Witness for C9: a parser that always fails yields the degraded dict. -/
theorem C9_witness :
    parse_json_response (fun _ => Except.error "boom") "some response" =
      PyValue.obj
        [("error", PyValue.str ("Failed to parse JSON: " ++ "boom")),
         ("raw", PyValue.str (pyTake "some response" 200))] :=
  (C9_parse_json_total (fun _ => Except.error "boom") "some response").2 "boom" rfl

/-! ### Document classification (claim C10) -/

/-- `DOCUMENT_TYPES` (config.py, lines 100-106). -/
def DOCUMENT_TYPES : List String :=
  ["lab_report", "visit_note", "imaging", "specialist_note", "discharge_summary"]

/-- `classify_document` (document_processor.py, lines 73-105), abstracted
over the TextGenerator call: `response` is the outcome of
`asyncio.to_thread(self.model.generate_content, prompt)` together with the
`.text` access — `.ok txt` is a returned completion text, `.error` is any
exception raised inside the `try` block.  The answer is stripped and
lower-cased; anything outside `DOCUMENT_TYPES`, or any raised exception,
falls back to `"visit_note"`. -/
def classify_document (response : Except String String) : String :=
  match response with
  | .error _ => "visit_note"
  | .ok txt =>
    if pyLower (pyStrip txt) ∈ DOCUMENT_TYPES then pyLower (pyStrip txt)
    else "visit_note"

/-- Claim C10: for every generator outcome, `classify_document` returns a
member of the five-element `DOCUMENT_TYPES` list, and returns the
`"visit_note"` fallback whenever the call raised or the answer is not a
recognised category — document routing is total. -/
theorem C10_classify_total (response : Except String String) :
    classify_document response ∈ DOCUMENT_TYPES ∧
    DOCUMENT_TYPES.length = 5 ∧
    (∀ e, response = .error e → classify_document response = "visit_note") ∧
    (∀ txt, response = .ok txt → pyLower (pyStrip txt) ∉ DOCUMENT_TYPES →
      classify_document response = "visit_note") := by
  refine ⟨?_, rfl, ?_, ?_⟩
  · cases response with
    | error e => simp [classify_document, DOCUMENT_TYPES]
    | ok txt =>
      show (if pyLower (pyStrip txt) ∈ DOCUMENT_TYPES then pyLower (pyStrip txt)
        else "visit_note") ∈ DOCUMENT_TYPES
      by_cases h : pyLower (pyStrip txt) ∈ DOCUMENT_TYPES
      · rw [if_pos h]
        exact h
      · rw [if_neg h]
        simp [DOCUMENT_TYPES]
  · intro e he
    subst he
    rfl
  · intro txt ht hmem
    subst ht
    show (if pyLower (pyStrip txt) ∈ DOCUMENT_TYPES then pyLower (pyStrip txt)
      else "visit_note") = "visit_note"
    rw [if_neg hmem]

/-- Witness for C10: a generation failure and an unrecognised answer both
fall back to `"visit_note"`. -/
theorem C10_witness :
    classify_document (Except.error "boom") = "visit_note" ∧
    classify_document (Except.ok "Unknown Category") = "visit_note" :=
  ⟨(C10_classify_total (Except.error "boom")).2.2.1 "boom" rfl,
   (C10_classify_total (Except.ok "Unknown Category")).2.2.2 "Unknown Category"
     rfl (by decide)⟩

end DocWeaver
